import Mathlib

/-!
Verification development for the repository content synchronization and
commit-publishing core (src/lib/git.ts).

Strings are modelled as lists of characters (`Str`).  Remote HTTP calls are
modelled by environments that supply each call's outcome (`Except HErr _`);
the publish pipeline additionally records the sequence of remote calls it
attempts, so that claims about "no remote call past a point" are statable.
-/

abbrev Str := List Char

/-! ## Glob patterns and the regex fragment produced by the walker

The source converts each exclude pattern with
`pattern.replace(/\*/g, '.*').replace(/\?/g, '.')` and builds an
*unanchored* JS `RegExp` from the result, testing it with `regex.test(path)`.
In the produced regex, each original `*` becomes the two-character atom `.*`
(any run of characters), each original `?` becomes `.` (any single
character), and a literal `.` already present in the pattern stays a regex
`.` (any single character).  All remaining characters of the patterns in
scope are regex-literal characters; the model maps them to literal tokens.
-/

inductive RTok
  | anyChar
  | anyRun
  | lit (c : Char)
deriving DecidableEq, Repr

/-- Token list of the regex the source builds from a glob pattern. -/
def regexOfGlob : Str → List RTok
  | [] => []
  | c :: cs =>
    (if c = '*' then RTok.anyRun
     else if c = '?' then RTok.anyChar
     else if c = '.' then RTok.anyChar
     else RTok.lit c) :: regexOfGlob cs

/-- Fuelled matcher: does the token list match some prefix of the string?
(JS regex matching is not end-anchored, so trailing characters are
ignored.)  Every recursive call strictly decreases toks.length + s.length,
so fuel larger than that sum is never exhausted. -/
def matchToksF : Nat → List RTok → Str → Bool
  | 0, _, _ => false
  | _ + 1, [], _ => true
  | f + 1, RTok.lit c :: ts, x :: xs => (x == c) && matchToksF f ts xs
  | _ + 1, RTok.lit _ :: _, [] => false
  | f + 1, RTok.anyChar :: ts, _ :: xs => matchToksF f ts xs
  | _ + 1, RTok.anyChar :: _, [] => false
  | f + 1, RTok.anyRun :: ts, [] => matchToksF f ts []
  | f + 1, RTok.anyRun :: ts, x :: xs =>
    matchToksF f ts (x :: xs) || matchToksF f (RTok.anyRun :: ts) xs

def matchToks (toks : List RTok) (s : Str) : Bool :=
  matchToksF (toks.length + s.length + 1) toks s

/-- JS `regex.test`: search for a match starting at any position. -/
def rtest (toks : List RTok) : Str → Bool
  | [] => matchToks toks []
  | x :: xs => matchToks toks (x :: xs) || rtest toks xs

/-- Fuelled glob matching as the specification words it: the whole path
must be matched, with `*` standing for any run of characters and `?` for
exactly one character; every other character (including `.`) stands for
itself.  Fuel larger than p.length + s.length is never exhausted. -/
def globMatchF : Nat → Str → Str → Bool
  | 0, _, _ => false
  | _ + 1, [], [] => true
  | _ + 1, [], _ :: _ => false
  | f + 1, c :: ps, [] => (c == '*') && globMatchF f ps []
  | f + 1, c :: ps, x :: xs =>
    if c = '*' then globMatchF f ps (x :: xs) || globMatchF f (c :: ps) xs
    else ((c == '?') || (c == x)) && globMatchF f ps xs

def globMatch (p s : Str) : Bool := globMatchF (p.length + s.length + 1) p s

/-! ## Extension extraction: item.path.split('.').pop()?.toLowerCase() -/

/-- JS String.prototype.split on a single separator character. -/
def splitOnChar (sep : Char) : Str → List Str
  | [] => [[]]
  | c :: cs =>
    let r := splitOnChar sep cs
    if c = sep then [] :: r
    else
      match r with
      | [] => [[c]]
      | h :: t => (c :: h) :: t

def toLowerStr (s : Str) : Str := s.map Char.toLower

/-- The walker's file-extension value: last `split('.')` segment,
lowercased.  For a dot-less path this is the whole (lowercased) path. -/
def extOf (p : Str) : Str := toLowerStr ((splitOnChar '.' p).getLastD [])

/-! ## Repository tree walker (fetchAllRepositoryFiles) -/

structure FileRecord where
  path : Str
  content : Str
deriving DecidableEq, Repr

/-- The remote answer to the per-item content request: reported size, the
raw (base64) payload, and the UTF-8 decode result (`none` models a decode
failure, i.e. binary content). -/
structure ContentData where
  size : Nat
  raw : Str
  decoded : Option Str
deriving DecidableEq, Repr

deriving instance DecidableEq for Except

/-- One entry of the recursive tree listing, together with the outcome of
fetching its content (`Except.error` models a failed per-entry request). -/
structure TreeItem where
  path : Str
  type : Str
  fetch : Except Str ContentData
deriving DecidableEq, Repr

structure FetchConfig where
  includeExtensions : Option (List Str) := none
  excludePatterns : Option (List Str) := none
  maxFileSize : Nat := 1048576
  includeBinary : Bool := false
  customFilter : Option (Str → Str → Except Unit Bool) := none

/-- The exclude-pattern decision: some pattern's converted regex matches
the path (unanchored test). -/
def excludeSkips (pats : Option (List Str)) (path : Str) : Bool :=
  match pats with
  | none => false
  | some ps => ps.any (fun p => rtest (regexOfGlob p) path)

/-- The extension allow-list decision: applied only when the list is
present and non-empty; skips when the extension is empty (falsy) or not in
the list. -/
def extSkips (exts : Option (List Str)) (path : Str) : Bool :=
  match exts with
  | none => false
  | some es =>
    if es.length > 0 then (extOf path).isEmpty || !(es.contains (extOf path))
    else false

inductive ItemResult
  | keep (f : FileRecord)
  | skip
  | ignore
deriving DecidableEq, Repr

/-- The tail of the per-item processing, after content was obtained:
the custom filter (whose own failure is caught and counted as a skip). -/
def afterContent (cfg : FetchConfig) (path content : Str) : ItemResult :=
  match cfg.customFilter with
  | none => ItemResult.keep { path := path, content := content }
  | some filt =>
    match filt path content with
    | Except.error _ => ItemResult.skip
    | Except.ok true => ItemResult.keep { path := path, content := content }
    | Except.ok false => ItemResult.skip

/-- Per-item decision of the walker loop body: non-blob entries are
ignored (no skip count), then exclude patterns, extension allow-list,
content fetch (failure poses a skip), size limit, UTF-8 decode (failure
skips unless binaries are included), and the custom filter. -/
def processItem (cfg : FetchConfig) (item : TreeItem) : ItemResult :=
  if item.type ≠ ("blob".data) then ItemResult.ignore
  else if excludeSkips cfg.excludePatterns item.path then ItemResult.skip
  else if extSkips cfg.includeExtensions item.path then ItemResult.skip
  else
    match item.fetch with
    | Except.error _ => ItemResult.skip
    | Except.ok d =>
      if d.size > cfg.maxFileSize then ItemResult.skip
      else
        match d.decoded with
        | some c => afterContent cfg item.path c
        | none =>
          if !cfg.includeBinary then ItemResult.skip
          else afterContent cfg item.path d.raw

/-- The walker loop: surviving records in input order, plus the skip
count. -/
def fetchFiles (cfg : FetchConfig) : List TreeItem → List FileRecord × Nat
  | [] => ([], 0)
  | item :: rest =>
    let r := fetchFiles cfg rest
    match processItem cfg item with
    | ItemResult.keep f => (f :: r.1, r.2)
    | ItemResult.skip => (r.1, r.2 + 1)
    | ItemResult.ignore => r

/-! ## Outer error mapping of the walker -/

structure HErr where
  status : Option Nat
  msg : Str
  respMsg : Option Str := none
  respErrors : List Str := []
deriving DecidableEq, Repr

inductive FetchError
  | thrown (msg : Str)
  | transport (e : HErr)
deriving DecidableEq, Repr

def notFoundMsg (owner repo branch : Str) : Str :=
  ("Repository ".data) ++ owner ++ ("/".data) ++ repo ++
    (" or branch ".data) ++ branch ++ (" not found".data)

def emptyRepoMsg (owner repo : Str) : Str :=
  ("Repository ".data) ++ owner ++ ("/".data) ++ repo ++ (" is empty".data)

/-- Top level of fetchAllRepositoryFiles: the recursive-tree request either
yields the listing (processed by the loop) or fails; a 404 and a 409 are
mapped to locally thrown errors with specific messages, anything else is
rethrown. -/
def fetchAllRepositoryFiles (owner repo branch : Str) (cfg : FetchConfig)
    (treeResp : Except HErr (List TreeItem)) :
    Except FetchError (List FileRecord × Nat) :=
  match treeResp with
  | Except.ok tree => Except.ok (fetchFiles cfg tree)
  | Except.error e =>
    if e.status = some 404 then
      Except.error (FetchError.thrown (notFoundMsg owner repo branch))
    else if e.status = some 409 then
      Except.error (FetchError.thrown (emptyRepoMsg owner repo))
    else Except.error (FetchError.transport e)

/-! ## File validation inside pushFilesAsCommit -/

/-- The character class [<>:"|?*\x00-\x1F] rejected in paths. -/
def isInvalidPathChar (c : Char) : Bool :=
  c = '<' || c = '>' || c = ':' || c = '\"' || c = '|' || c = '?' ||
    c = '*' || c.toNat ≤ 31

def hasInvalidPathChar (p : Str) : Bool := p.any isInvalidPathChar

/-- JS String.prototype.trim on both ends. -/
def trimChars (s : Str) : Str :=
  ((s.dropWhile Char.isWhitespace).reverse.dropWhile Char.isWhitespace).reverse

/-- path.replace(/\\/g, '/'): every backslash becomes a forward slash. -/
def replaceBackslashes (s : Str) : Str :=
  s.map (fun c => if c = '\\' then '/' else c)

def validFile (f : FileRecord) : Bool :=
  !(trimChars f.content).isEmpty && !(trimChars f.path).isEmpty &&
    !hasInvalidPathChar f.path

def normalizeFile (f : FileRecord) : FileRecord :=
  { path := trimChars (replaceBackslashes f.path), content := f.content }

/-- The validation step of pushFilesAsCommit: filter, then normalize. -/
def validateFiles (files : List FileRecord) : List FileRecord :=
  (files.filter validFile).map normalizeFile

/-! ## The commit publisher (pushFilesAsCommit) and the object store client

Every remote call of the pipeline is recorded as a `Call` event; an
environment (`PushEnv`) supplies each call's outcome.  The computation type
`M` threads the list of calls attempted so far and short-circuits on the
first error while keeping the trace. -/

structure TokenInfo where
  login : Str
  scopes : List Str
deriving DecidableEq, Repr

/-- The blob-creation request body: the source always posts
{ content, encoding: "utf-8" }. -/
structure BlobRequest where
  content : Str
  encoding : Str
deriving DecidableEq, Repr

def createBlobRequest (content : Str) : BlobRequest :=
  { content := content, encoding := ("utf-8".data) }

/-- One entry of the tree-creation request, as built by createTree:
path, mode "100644", type "blob", and the blob id returned by the store. -/
structure TreeEntry where
  path : Str
  mode : Str
  type : Str
  sha : Str
deriving DecidableEq, Repr

inductive Call
  | verifyToken
  | repoGet
  | createRepo
  | getRef (branch : Str)
  | createRef (branch : Str) (sha : Str)
  | getCommit (sha : Str)
  | postBlob (req : BlobRequest)
  | postTree (baseTree : Str) (entries : List TreeEntry)
  | postCommit (parent : Str) (tree : Str) (message : Str)
  | patchRef (branch : Str) (sha : Str) (force : Bool)
deriving DecidableEq, Repr

/-- Errors flowing inside pushFilesAsCommit: either a remote (axios-like)
failure carrying an HTTP status, or a locally constructed Error. -/
inductive RawErr
  | http (e : HErr)
  | js (msg : Str)
deriving DecidableEq, Repr

def M (α : Type) : Type := List Call → Except RawErr α × List Call

def mpure {α : Type} (a : α) : M α := fun tr => (Except.ok a, tr)

def mbind {α β : Type} (x : M α) (f : α → M β) : M β := fun tr =>
  match x tr with
  | (Except.ok a, tr2) => f a tr2
  | (Except.error e, tr2) => (Except.error e, tr2)

/-- Record a remote call and translate its outcome; a failure becomes a
rethrown http error. -/
def call {α : Type} (ev : Call) (r : Except HErr α) : M α := fun tr =>
  (match r with
   | Except.ok a => Except.ok a
   | Except.error e => Except.error (RawErr.http e),
   tr ++ [ev])

/-- A locally thrown Error (no remote call). -/
def throwJs {α : Type} (msg : Str) : M α := fun tr =>
  (Except.error (RawErr.js msg), tr)

def verifyTokenFailMsg (e : HErr) : Str :=
  ("GitHub token verification failed: ".data) ++ e.msg

/-- verifyToken: a rejected introspection call is rethrown as a locally
constructed Error with a specific message. -/
def callVerify (r : Except HErr TokenInfo) : M TokenInfo := fun tr =>
  (match r with
   | Except.ok t => Except.ok t
   | Except.error e => Except.error (RawErr.js (verifyTokenFailMsg e)),
   tr ++ [Call.verifyToken])

/-- repositoryExists: a 404 response maps to false, any other failure is
rethrown. -/
def callRepoExists (r : Except HErr Unit) : M Bool := fun tr =>
  (match r with
   | Except.ok _ => Except.ok true
   | Except.error e =>
     if e.status = some 404 then Except.ok false
     else Except.error (RawErr.http e),
   tr ++ [Call.repoGet])

/-- createBranch's outcome decision: a 422 (ref already exists) is
swallowed and treated as success; any other failure propagates. -/
def createBranch (newBranch baseSHA : Str) (resp : Except HErr Unit) :
    Except HErr Unit :=
  match resp with
  | Except.ok _ => Except.ok ()
  | Except.error e =>
    if e.status = some 422 then Except.ok () else Except.error e

def callCreateBranch (newBranch baseSHA : Str) (resp : Except HErr Unit) :
    M Unit :=
  call (Call.createRef newBranch baseSHA) (createBranch newBranch baseSHA resp)

/-- Per-publish remote behaviour: the outcome of each call the pipeline
can make.  createBlob depends on the posted content. -/
structure PushEnv where
  verifyToken : Except HErr TokenInfo
  repoGet : Except HErr Unit
  createRepo : Except HErr Unit
  getBranchSHA : Except HErr Str
  createBranchResp : Except HErr Unit
  getCommitTree : Except HErr Str
  createBlob : Str → Except HErr Str
  createTree : Except HErr Str
  createCommit : Except HErr Str
  updateRef : Except HErr Unit

/-- createTree's blob loop: one blob per file, in input order, collecting
tree entries with mode "100644" and type "blob". -/
def blobLoop (env : PushEnv) : List FileRecord → M (List TreeEntry)
  | [] => mpure []
  | f :: rest =>
    mbind (call (Call.postBlob (createBlobRequest f.content))
                (env.createBlob f.content)) (fun sha =>
    mbind (blobLoop env rest) (fun entries =>
    mpure ({ path := f.path, mode := ("100644".data),
             type := ("blob".data), sha := sha } :: entries)))

/-- createTree: blobs first, then one tree anchored at the base tree. -/
def callCreateTree (env : PushEnv) (baseTreeSHA : Str)
    (files : List FileRecord) : M Str :=
  mbind (blobLoop env files) (fun entries =>
    call (Call.postTree baseTreeSHA entries) env.createTree)

structure PushArgs where
  owner : Str
  repo : Str
  baseBranch : Str
  newBranch : Str
  files : List FileRecord
  commitMessage : Str
deriving DecidableEq, Repr

structure PushResult where
  commitSHA : Str
  repoUrl : Str
  branchUrl : Str
deriving DecidableEq, Repr

def repoUrlOf (owner repo : Str) : Str :=
  ("https://github.com/".data) ++ owner ++ ("/".data) ++ repo

def branchUrlOf (owner repo branch : Str) : Str :=
  repoUrlOf owner repo ++ ("/tree/".data) ++ branch

def noValidFilesMsg : Str :=
  ("No valid files to commit after validation".data)

/-- The body of pushFilesAsCommit (the code inside its try block):
verify token, check/create repository, resolve the base branch head,
optionally create the new branch (JS truthiness: a non-empty string) and
retarget, read the base commit tree, validate the files (an empty result
throws), create blobs and the tree, create the commit, force-update the
ref, and return the result with the branch URL of the (possibly
retargeted) branch. -/
def pushBody (env : PushEnv) (a : PushArgs) : M PushResult :=
  mbind (callVerify env.verifyToken) (fun _tok =>
  mbind (callRepoExists env.repoGet) (fun ex =>
  mbind (if ex then mpure ()
         else mbind (call Call.createRepo env.createRepo) (fun _ => mpure ()))
        (fun _ =>
  mbind (call (Call.getRef a.baseBranch) env.getBranchSHA) (fun baseSHA =>
  mbind (if a.newBranch.isEmpty then mpure a.baseBranch
         else mbind (callCreateBranch a.newBranch baseSHA env.createBranchResp)
                    (fun _ => mpure a.newBranch)) (fun branch =>
  mbind (call (Call.getCommit baseSHA) env.getCommitTree) (fun baseTreeSHA =>
  mbind (if (validateFiles a.files).isEmpty then throwJs noValidFilesMsg
         else mpure ()) (fun _ =>
  mbind (callCreateTree env baseTreeSHA (validateFiles a.files))
        (fun newTreeSHA =>
  mbind (call (Call.postCommit baseSHA newTreeSHA a.commitMessage)
              env.createCommit) (fun commitSHA =>
  mbind (call (Call.patchRef branch commitSHA true) env.updateRef) (fun _ =>
  mpure { commitSHA := commitSHA,
          repoUrl := repoUrlOf a.owner a.repo,
          branchUrl := branchUrlOf a.owner a.repo branch }))))))))))

/-- The message built for a remote 422 on the publish path. -/
def detailed422 (e : HErr) : Str :=
  let errorMsg := e.respMsg.getD ("Validation failed".data)
  let base := ("GitHub API validation error: ".data) ++ errorMsg
  if e.respErrors.isEmpty then base
  else base ++ ("\nDetails: ".data) ++
    (String.intercalate ", " (e.respErrors.map List.asString)).data

/-- The catch block of pushFilesAsCommit: a remote 422 is replaced by a
locally constructed detailed Error; every other error (including a remote
409, which is only logged) is rethrown unchanged. -/
def applyCatch : RawErr → RawErr
  | RawErr.http e =>
    if e.status = some 422 then RawErr.js (detailed422 e) else RawErr.http e
  | RawErr.js m => RawErr.js m

def pushFilesAsCommit (env : PushEnv) (a : PushArgs) :
    Except RawErr PushResult × List Call :=
  let r := pushBody env a []
  (r.1.mapError applyCatch, r.2)

-- quick sanity examples (walker and validator on concrete inputs)
example : globMatch ("a*c".data) ("abbc".data) = true := by decide
example : globMatch ("a".data) ("ba".data) = false := by decide
example : rtest (regexOfGlob ("a".data)) ("ba".data) = true := by decide
example : extOf ("a.TS".data) = ("ts".data) := by decide
example : extOf ("dockerfile".data) = ("dockerfile".data) := by decide
example :
    validateFiles [{ path := (" a\\b ".data), content := ("x".data) }] =
      [{ path := ("a/b".data), content := ("x".data) }] := by decide

/-- An all-success remote behaviour used by concrete witnesses. -/
def envOk : PushEnv :=
  { verifyToken := Except.ok { login := ("o".data), scopes := [("repo".data)] },
    repoGet := Except.ok (),
    createRepo := Except.ok (),
    getBranchSHA := Except.ok ("base".data),
    createBranchResp := Except.ok (),
    getCommitTree := Except.ok ("btree".data),
    createBlob := fun _ => Except.ok ("bsha".data),
    createTree := Except.ok ("tsha".data),
    createCommit := Except.ok ("csha".data),
    updateRef := Except.ok () }

def argsOk : PushArgs :=
  { owner := ("o".data), repo := ("r".data),
    baseBranch := ("main".data), newBranch := ("feature-x".data),
    files := [{ path := ("a.ts".data), content := ("A".data) }],
    commitMessage := ("msg".data) }

example :
    (pushFilesAsCommit envOk argsOk).1 =
      Except.ok { commitSHA := ("csha".data),
                  repoUrl := repoUrlOf ("o".data) ("r".data),
                  branchUrl := branchUrlOf ("o".data) ("r".data) ("feature-x".data) } := by
  decide

/-! ## Helper lemmas about trimming -/

theorem mem_of_mem_trimChars {c : Char} {s : Str} (h : c ∈ trimChars s) :
    c ∈ s := by
  unfold trimChars at h
  rw [List.mem_reverse] at h
  have h2 : c ∈ (s.dropWhile Char.isWhitespace).reverse :=
    (List.dropWhile_sublist _).subset h
  rw [List.mem_reverse] at h2
  exact (List.dropWhile_sublist _).subset h2

theorem trimChars_eq_nil_iff (s : Str) :
    trimChars s = [] ↔ ∀ c ∈ s, c.isWhitespace = true := by
  unfold trimChars
  rw [List.reverse_eq_nil_iff, List.dropWhile_eq_nil_iff]
  constructor
  · intro h c hc
    by_contra hw
    have hsplit : s.takeWhile Char.isWhitespace ++ s.dropWhile Char.isWhitespace = s :=
      List.takeWhile_append_dropWhile Char.isWhitespace s
    rw [← hsplit] at hc
    rcases List.mem_append.1 hc with h1 | h2
    · exact hw (List.mem_takeWhile_imp h1)
    · exact hw (h c (List.mem_reverse.2 h2))
  · intro h c hc
    rw [List.mem_reverse] at hc
    exact h c ((List.dropWhile_sublist _).subset hc)

/-! ## Concrete fixtures used by counterexamples and witnesses -/

def mkItem (p content : String) : TreeItem :=
  { path := p.data, type := ("blob".data),
    fetch := Except.ok { size := 1, raw := [], decoded := some content.data } }

def cfgTsMd : FetchConfig :=
  { includeExtensions := some [("ts".data), ("md".data)] }

def itemsTsMd : List TreeItem :=
  [mkItem ("a.ts") ("A"), mkItem ("b.py") ("B"), mkItem ("c.md") ("C")]

def cfgExcl : FetchConfig := { excludePatterns := some [("a".data)] }

def itemBa : TreeItem := mkItem ("ba") ("x")

def cfgDocker : FetchConfig :=
  { includeExtensions := some [("dockerfile".data)] }

def dockerItem : TreeItem := mkItem ("Dockerfile") ("FROM node")

/-! ## Claim C2 -/

/-- Claim C2, counterexample: with the single exclude pattern "a" and a
blob entry at path "ba" which every other filter keeps, the walker skips
the entry (skip count 1, no file returned) although the pattern, read as a
full-path glob, does not match the path — the source converts the pattern
to an unanchored regex, so it matches substrings. -/
theorem exclude_pattern_counterexample :
    fetchFiles cfgExcl [itemBa] = ([], 1) ∧
      globMatch ("a".data) ("ba".data) = false := by decide

/-- Claim C2, amended: for a blob entry that every later filter keeps,
the walker skips it exactly when some exclude pattern, converted to a
regex (each * to .*, each ? to ., a literal . matching any character,
other characters literal), matches at SOME POSITION of the path
(unanchored substring search, not a full-path match); the skip increments
the skip count. -/
theorem exclude_pattern_substring_semantics (cfg : FetchConfig)
    (pats : List Str) (item : TreeItem) (d : ContentData) (c : Str)
    (hpat : cfg.excludePatterns = some pats)
    (htype : item.type = ("blob".data))
    (hext : extSkips cfg.includeExtensions item.path = false)
    (hfetch : item.fetch = Except.ok d)
    (hsize : d.size ≤ cfg.maxFileSize)
    (hdec : d.decoded = some c)
    (hfil : cfg.customFilter = none) :
    (pats.any (fun p => rtest (regexOfGlob p) item.path) = true →
      fetchFiles cfg [item] = ([], 1)) ∧
    (pats.any (fun p => rtest (regexOfGlob p) item.path) = false →
      fetchFiles cfg [item] = ([{ path := item.path, content := c }], 0)) := by
  have hnotgt : ¬ d.size > cfg.maxFileSize := Nat.not_lt.mpr hsize
  constructor
  · intro hany
    simp [fetchFiles, processItem, htype, excludeSkips, hpat, hany]
  · intro hany
    simp [fetchFiles, processItem, htype, excludeSkips, hpat, hany, hext,
      hfetch, hnotgt, hdec, afterContent, hfil]

theorem exclude_pattern_substring_semantics_witness :
    (([("a".data)] : List Str).any
        (fun p => rtest (regexOfGlob p) itemBa.path) = true →
      fetchFiles cfgExcl [itemBa] = ([], 1)) ∧
    (([("a".data)] : List Str).any
        (fun p => rtest (regexOfGlob p) itemBa.path) = false →
      fetchFiles cfgExcl [itemBa] =
        ([{ path := itemBa.path, content := ("x".data) }], 0)) :=
  exclude_pattern_substring_semantics cfgExcl [("a".data)] itemBa
    { size := 1, raw := [], decoded := some ("x".data) } ("x".data)
    rfl rfl (by decide) rfl (by decide) rfl rfl

/-! ## Claim C4 -/

/-- Claim C4: every record in the validator's output has a non-empty path,
non-whitespace-only content, a path free of the invalid characters
< > : " | ? * and of control characters, and a path containing no
backslash; the output path is the trimmed, backslash-normalized input path
and the content is carried over unchanged. -/
theorem validator_output_invariants (files : List FileRecord)
    (f : FileRecord) (hf : f ∈ validateFiles files) :
    f.path ≠ [] ∧ trimChars f.content ≠ [] ∧
      (∀ c ∈ f.path, isInvalidPathChar c = false ∧ c ≠ '\\') ∧
      ∃ g ∈ files, f.path = trimChars (replaceBackslashes g.path) ∧
        f.content = g.content := by
  unfold validateFiles at hf
  rcases List.mem_map.1 hf with ⟨g, hg, hfg⟩
  rcases List.mem_filter.1 hg with ⟨hgmem, hgvalid⟩
  unfold validFile at hgvalid
  simp only [Bool.and_eq_true, Bool.not_eq_true', List.isEmpty_eq_false,
    Bool.not_eq_true] at hgvalid
  obtain ⟨⟨hcont, hpath⟩, hinv⟩ := hgvalid
  have hinvall : ∀ c ∈ g.path, isInvalidPathChar c = false := by
    intro c hc
    have := List.any_eq_false.1 hinv
    simpa using this c hc
  subst hfg
  unfold normalizeFile
  refine ⟨?_, ?_, ?_, ?_⟩
  · intro hnil
    have hall := (trimChars_eq_nil_iff _).1 hnil
    have hex : ∃ c ∈ g.path, ¬ c.isWhitespace = true := by
      by_contra hno
      push_neg at hno
      exact hpath ((trimChars_eq_nil_iff _).2 hno)
    rcases hex with ⟨c, hc, hw⟩
    have hmem2 : (if c = '\\' then '/' else c) ∈ replaceBackslashes g.path :=
      List.mem_map.2 ⟨c, hc, rfl⟩
    have hw2 := hall _ hmem2
    by_cases hbs : c = '\\'
    · rw [if_pos hbs] at hw2
      exact absurd hw2 (by decide)
    · rw [if_neg hbs] at hw2
      exact hw hw2
  · exact hcont
  · intro c hc
    have hc2 : c ∈ replaceBackslashes g.path := mem_of_mem_trimChars hc
    rcases List.mem_map.1 hc2 with ⟨c0, hc0, hceq⟩
    by_cases hbs : c0 = '\\'
    · rw [if_pos hbs] at hceq
      subst hceq
      exact ⟨by decide, by decide⟩
    · rw [if_neg hbs] at hceq
      subst hceq
      exact ⟨hinvall c0 hc0, hbs⟩
  · exact ⟨g, hgmem, rfl, rfl⟩

theorem validator_output_invariants_witness :
    (({ path := ("a/b".data), content := ("x".data) } : FileRecord).path ≠ [] ∧
      trimChars ({ path := ("a/b".data), content := ("x".data) } : FileRecord).content ≠ [] ∧
      (∀ c ∈ ({ path := ("a/b".data), content := ("x".data) } : FileRecord).path,
        isInvalidPathChar c = false ∧ c ≠ '\\') ∧
      ∃ g ∈ [({ path := (" a\\b ".data), content := ("x".data) } : FileRecord)],
        ({ path := ("a/b".data), content := ("x".data) } : FileRecord).path =
          trimChars (replaceBackslashes g.path) ∧
        ({ path := ("a/b".data), content := ("x".data) } : FileRecord).content = g.content) :=
  validator_output_invariants
    [{ path := (" a\\b ".data), content := ("x".data) }]
    { path := ("a/b".data), content := ("x".data) } (by decide)

/-! ## Claim C6 -/

/-- Claim C6: createBranch is idempotent — a first call whose remote
create succeeds returns success, a second call with the same name and base
whose remote create is rejected with 422 (already exists) also returns
success as a no-op, and any error with a different status is propagated
unchanged. -/
theorem createBranch_idempotent (nb bs : Str) (r1 r2 : Except HErr Unit)
    (e2 e : HErr)
    (h1 : r1 = Except.ok ()) (h2 : r2 = Except.error e2)
    (h422 : e2.status = some 422) (hne : e.status ≠ some 422) :
    createBranch nb bs r1 = Except.ok () ∧
      createBranch nb bs r2 = Except.ok () ∧
      createBranch nb bs (Except.error e) = Except.error e := by
  subst h1
  subst h2
  refine ⟨rfl, ?_, ?_⟩
  · simp [createBranch, h422]
  · simp [createBranch, hne]

theorem createBranch_idempotent_witness :
    createBranch ("b".data) ("s".data) (Except.ok ()) = Except.ok () ∧
      createBranch ("b".data) ("s".data)
        (Except.error { status := some 422, msg := [] }) = Except.ok () ∧
      createBranch ("b".data) ("s".data)
        (Except.error { status := some 500, msg := [] }) =
        Except.error { status := some 500, msg := [] } :=
  createBranch_idempotent ("b".data) ("s".data) (Except.ok ())
    (Except.error { status := some 422, msg := [] })
    { status := some 422, msg := [] } { status := some 500, msg := [] }
    rfl rfl (by decide) (by decide)

/-! ## Claim C7 -/

theorem keep_extSkips_false {cfg : FetchConfig} {item : TreeItem}
    {f : FileRecord} (hkeep : processItem cfg item = ItemResult.keep f) :
    extSkips cfg.includeExtensions item.path = false := by
  unfold processItem at hkeep
  by_cases hb : item.type ≠ ("blob".data)
  · simp [hb] at hkeep
  · by_cases hex : excludeSkips cfg.excludePatterns item.path = true
    · simp [hb, hex] at hkeep
    · by_cases hext : extSkips cfg.includeExtensions item.path = true
      · simp [hb, hex, hext] at hkeep
      · exact Bool.not_eq_true _ ▸ hext

/-- Claim C7: with a non-empty extension allow-list, an entry survives the
extension filter only if the lowercase last dot-segment of its path is in
the list; concretely, with extensions ts and md and files a.ts, b.py, c.md
the walker returns exactly a.ts and c.md and reports one skip. -/
theorem extension_allowlist (cfg : FetchConfig) (exts : List Str)
    (item : TreeItem) (f : FileRecord)
    (hexts : cfg.includeExtensions = some exts) (hne : exts ≠ [])
    (hkeep : processItem cfg item = ItemResult.keep f) :
    exts.contains (extOf item.path) = true ∧
      fetchFiles cfgTsMd itemsTsMd =
        ([{ path := ("a.ts".data), content := ("A".data) },
          { path := ("c.md".data), content := ("C".data) }], 1) := by
  refine ⟨?_, by decide⟩
  have hskip := keep_extSkips_false hkeep
  rw [hexts] at hskip
  rw [show extSkips (some exts) item.path =
      (if exts.length > 0 then
        (extOf item.path).isEmpty || !(exts.contains (extOf item.path))
      else false) from rfl] at hskip
  have hlen : exts.length > 0 := List.length_pos.2 hne
  rw [if_pos hlen] at hskip
  rcases Bool.or_eq_false_iff.1 hskip with ⟨_, hcon⟩
  simpa using hcon

theorem extension_allowlist_witness :
    ([("ts".data), ("md".data)] : List Str).contains
        (extOf (mkItem ("a.ts") ("A")).path) = true ∧
      fetchFiles cfgTsMd itemsTsMd =
        ([{ path := ("a.ts".data), content := ("A".data) },
          { path := ("c.md".data), content := ("C".data) }], 1) :=
  extension_allowlist cfgTsMd [("ts".data), ("md".data)]
    (mkItem ("a.ts") ("A")) { path := ("a.ts".data), content := ("A".data) }
    rfl (by decide) (by decide)

/-! ## Claim C8 -/

theorem fetchFiles_append (cfg : FetchConfig) (l1 l2 : List TreeItem) :
    fetchFiles cfg (l1 ++ l2) =
      ((fetchFiles cfg l1).1 ++ (fetchFiles cfg l2).1,
       (fetchFiles cfg l1).2 + (fetchFiles cfg l2).2) := by
  induction l1 with
  | nil => simp [fetchFiles]
  | cons i t ih =>
    cases hpi : processItem cfg i <;>
      simp [fetchFiles, hpi, ih] <;> omega

/-- Claim C8: a per-entry failure (a failed content fetch, or a custom
filter that throws) makes that entry a skip, and a skipped entry in the
middle of a walk leaves every other entry's result unchanged: the files
are those of the walk without the entry and the skip count is one
higher — the walk is never aborted. -/
theorem per_entry_failure (cfg : FetchConfig) (t1 t2 : List TreeItem)
    (item item2 item3 : TreeItem) (e : Str) (d : ContentData) (c : Str)
    (filt : Str → Str → Except Unit Bool)
    (hskip : processItem cfg item = ItemResult.skip)
    (htype2 : item2.type = ("blob".data))
    (hexc2 : excludeSkips cfg.excludePatterns item2.path = false)
    (hext2 : extSkips cfg.includeExtensions item2.path = false)
    (hferr2 : item2.fetch = Except.error e)
    (htype3 : item3.type = ("blob".data))
    (hexc3 : excludeSkips cfg.excludePatterns item3.path = false)
    (hext3 : extSkips cfg.includeExtensions item3.path = false)
    (hfok3 : item3.fetch = Except.ok d)
    (hsz3 : d.size ≤ cfg.maxFileSize)
    (hde3 : d.decoded = some c)
    (hcf : cfg.customFilter = some filt)
    (hthrow : filt item3.path c = Except.error ()) :
    fetchFiles cfg (t1 ++ item :: t2) =
      ((fetchFiles cfg (t1 ++ t2)).1, (fetchFiles cfg (t1 ++ t2)).2 + 1) ∧
      processItem cfg item2 = ItemResult.skip ∧
      processItem cfg item3 = ItemResult.skip := by
  have hnotgt3 : ¬ d.size > cfg.maxFileSize := Nat.not_lt.mpr hsz3
  refine ⟨?_, ?_, ?_⟩
  · have hmid : fetchFiles cfg [item] = ([], 1) := by
      simp [fetchFiles, hskip]
    have h1 : t1 ++ item :: t2 = t1 ++ ([item] ++ t2) := by simp
    rw [h1, fetchFiles_append, fetchFiles_append, fetchFiles_append, hmid]
    simp
    omega
  · simp [processItem, htype2, hexc2, hext2, hferr2]
  · simp [processItem, htype3, hexc3, hext3, hfok3, hnotgt3, hde3,
      afterContent, hcf, hthrow]

def throwingFilter : Str → Str → Except Unit Bool :=
  fun _ c => if c = ("bad".data) then Except.error () else Except.ok true

def cfgThrow : FetchConfig := { customFilter := some throwingFilter }

def itemFetchFail : TreeItem :=
  { path := ("p".data), type := ("blob".data),
    fetch := Except.error ("boom".data) }

def itemFilterThrow : TreeItem :=
  { path := ("q".data), type := ("blob".data),
    fetch := Except.ok { size := 1, raw := [], decoded := some ("bad".data) } }

theorem per_entry_failure_witness :
    fetchFiles cfgThrow
        ([mkItem ("a.ts") ("A")] ++ itemFetchFail :: [mkItem ("c.md") ("C")]) =
      ((fetchFiles cfgThrow ([mkItem ("a.ts") ("A")] ++ [mkItem ("c.md") ("C")])).1,
       (fetchFiles cfgThrow ([mkItem ("a.ts") ("A")] ++ [mkItem ("c.md") ("C")])).2 + 1) ∧
      processItem cfgThrow itemFetchFail = ItemResult.skip ∧
      processItem cfgThrow itemFilterThrow = ItemResult.skip :=
  per_entry_failure cfgThrow [mkItem ("a.ts") ("A")] [mkItem ("c.md") ("C")]
    itemFetchFail itemFetchFail itemFilterThrow ("boom".data)
    { size := 1, raw := [], decoded := some ("bad".data) } ("bad".data)
    throwingFilter
    (by decide) rfl (by decide) (by decide) rfl rfl (by decide) (by decide)
    rfl (by decide) rfl rfl (by decide)

/-! ## Claim C9 -/

theorem splitOnChar_eq_single {sep : Char} {p : Str} (h : sep ∉ p) :
    splitOnChar sep p = [p] := by
  induction p with
  | nil => rfl
  | cons c cs ih =>
    have hc : ¬ c = sep := fun hcs => h (hcs ▸ List.mem_cons_self c cs)
    have hcs : sep ∉ cs := fun hm => h (List.mem_cons_of_mem _ hm)
    simp [splitOnChar, hc, ih hcs]

/-- Claim C9: for a path containing no dot, the walker's extension value
is the whole lowercased path (split('.').pop() of a dot-less string), so a
file named Dockerfile is kept when the allow-list contains dockerfile. -/
theorem dotless_extension (p : Str) (hd : ('.' : Char) ∉ p) :
    extOf p = toLowerStr p ∧
      fetchFiles cfgDocker [dockerItem] =
        ([{ path := ("Dockerfile".data), content := ("FROM node".data) }], 0) := by
  constructor
  · unfold extOf
    rw [splitOnChar_eq_single hd]
    rfl
  · decide

theorem dotless_extension_witness :
    extOf ("Dockerfile".data) = toLowerStr ("Dockerfile".data) ∧
      fetchFiles cfgDocker [dockerItem] =
        ([{ path := ("Dockerfile".data), content := ("FROM node".data) }], 0) :=
  dotless_extension ("Dockerfile".data) (by decide)

/-! ## Claim C1 -/

/-- Remote calls that come after the validation point of the publish
pipeline: blob creation, tree creation, commit creation, ref update. -/
def isPastValidation : Call → Bool
  | Call.postBlob _ => true
  | Call.postTree _ _ => true
  | Call.postCommit _ _ _ => true
  | Call.patchRef _ _ _ => true
  | _ => false

/-- Claim C1: when validation drops every record, the publish fails with
the Error "No valid files to commit after validation" and no remote call
past the validation point is attempted — no blob, tree or commit creation
and no ref update appear in the call trace. -/
theorem push_no_valid_files (env : PushEnv) (a : PushArgs)
    (tok : TokenInfo) (baseSha treeSha : Str)
    (hv : env.verifyToken = Except.ok tok)
    (hr : env.repoGet = Except.ok ())
    (hb : env.getBranchSHA = Except.ok baseSha)
    (hcb : env.createBranchResp = Except.ok ())
    (hct : env.getCommitTree = Except.ok treeSha)
    (hval : validateFiles a.files = []) :
    (pushFilesAsCommit env a).1 = Except.error (RawErr.js noValidFilesMsg) ∧
      ∀ c ∈ (pushFilesAsCommit env a).2, isPastValidation c = false := by
  cases hnb : a.newBranch.isEmpty with
  | true =>
    have hres : pushBody env a [] =
        (Except.error (RawErr.js noValidFilesMsg),
         [Call.verifyToken, Call.repoGet, Call.getRef a.baseBranch,
          Call.getCommit baseSha]) := by
      simp [pushBody, mbind, mpure, call, callVerify, callRepoExists,
        callCreateBranch, createBranch, throwJs, hv, hr, hb, hcb, hct,
        hval, hnb]
    refine ⟨?_, ?_⟩
    · show ((pushBody env a []).1.mapError applyCatch) = _
      rw [hres]
      rfl
    · intro c hc
      have hc2 : c ∈ (pushBody env a []).2 := hc
      rw [hres] at hc2
      simp at hc2
      rcases hc2 with rfl | rfl | rfl | rfl <;> rfl
  | false =>
    have hres : pushBody env a [] =
        (Except.error (RawErr.js noValidFilesMsg),
         [Call.verifyToken, Call.repoGet, Call.getRef a.baseBranch,
          Call.createRef a.newBranch baseSha, Call.getCommit baseSha]) := by
      simp [pushBody, mbind, mpure, call, callVerify, callRepoExists,
        callCreateBranch, createBranch, throwJs, hv, hr, hb, hcb, hct,
        hval, hnb]
    refine ⟨?_, ?_⟩
    · show ((pushBody env a []).1.mapError applyCatch) = _
      rw [hres]
      rfl
    · intro c hc
      have hc2 : c ∈ (pushBody env a []).2 := hc
      rw [hres] at hc2
      simp at hc2
      rcases hc2 with rfl | rfl | rfl | rfl | rfl <;> rfl

def argsEmpty : PushArgs :=
  { owner := ("o".data), repo := ("r".data),
    baseBranch := ("main".data), newBranch := [],
    files := [{ path := ("a.ts".data), content := ("   ".data) }],
    commitMessage := ("msg".data) }

theorem push_no_valid_files_witness :
    (pushFilesAsCommit envOk argsEmpty).1 =
        Except.error (RawErr.js noValidFilesMsg) ∧
      ∀ c ∈ (pushFilesAsCommit envOk argsEmpty).2,
        isPastValidation c = false :=
  push_no_valid_files envOk argsEmpty
    { login := ("o".data), scopes := [("repo".data)] }
    ("base".data) ("btree".data) rfl rfl rfl rfl rfl (by decide)

/-! ## Claim C3 -/

def startsWithStr : Str → Str → Bool
  | [], _ => true
  | _ :: _, [] => false
  | c :: cs, x :: xs => (c == x) && startsWithStr cs xs

def hasSubstr (needle : Str) : Str → Bool
  | [] => startsWithStr needle []
  | x :: xs => startsWithStr needle (x :: xs) || hasSubstr needle xs

def rawErrMsg : RawErr → Str
  | RawErr.js m => m
  | RawErr.http e => e.msg

def herr409 : HErr :=
  { status := some 409, msg := ("Request failed with status code 409".data) }

def env409 : PushEnv :=
  { verifyToken := Except.ok { login := ("o".data), scopes := [("repo".data)] },
    repoGet := Except.ok (),
    createRepo := Except.ok (),
    getBranchSHA := Except.error herr409,
    createBranchResp := Except.ok (),
    getCommitTree := Except.ok ("btree".data),
    createBlob := fun _ => Except.ok ("bsha".data),
    createTree := Except.ok ("tsha".data),
    createCommit := Except.ok ("csha".data),
    updateRef := Except.ok () }

/-- Claim C3, counterexample: on the publish path, a 409 from the
branch-head read is rethrown as the raw transport error — the surfaced
error is not a locally constructed one and its message does not contain
the word "empty" (the catch block only logs a 409 and rethrows). -/
theorem publish_409_counterexample :
    (pushFilesAsCommit env409 argsOk).1 =
        Except.error (RawErr.http herr409) ∧
      hasSubstr ("empty".data) (rawErrMsg (RawErr.http herr409)) = false := by
  decide

/-- Claim C3, amended: a 409 on the tree read of the fetch path is
surfaced as the specific Error "Repository owner/repo is empty", but on
the publish path a 409 from the branch-head read is NOT translated — the
original transport error is rethrown unchanged, with only a console log. -/
theorem conflict_409_paths (owner repo branch : Str) (cfg : FetchConfig)
    (e : HErr) (env : PushEnv) (a : PushArgs) (tok : TokenInfo)
    (h409 : e.status = some 409)
    (hv : env.verifyToken = Except.ok tok)
    (hr : env.repoGet = Except.ok ())
    (hb : env.getBranchSHA = Except.error e) :
    fetchAllRepositoryFiles owner repo branch cfg (Except.error e) =
      Except.error (FetchError.thrown (emptyRepoMsg owner repo)) ∧
      (pushFilesAsCommit env a).1 = Except.error (RawErr.http e) := by
  constructor
  · simp [fetchAllRepositoryFiles, h409]
  · have h422 : ¬ e.status = some 422 := by rw [h409]; decide
    show ((pushBody env a []).1.mapError applyCatch) = _
    simp [pushBody, mbind, mpure, call, callVerify, callRepoExists,
      hv, hr, hb, Except.mapError, applyCatch, h422]

theorem conflict_409_paths_witness :
    fetchAllRepositoryFiles ("o".data) ("r".data) ("main".data)
        ({} : FetchConfig) (Except.error herr409) =
      Except.error (FetchError.thrown (emptyRepoMsg ("o".data) ("r".data))) ∧
      (pushFilesAsCommit env409 argsOk).1 =
        Except.error (RawErr.http herr409) :=
  conflict_409_paths ("o".data) ("r".data) ("main".data) ({} : FetchConfig)
    herr409 env409 argsOk
    { login := ("o".data), scopes := [("repo".data)] }
    rfl rfl rfl rfl

/-! ## Claim C5 -/

theorem blobLoop_ok (env : PushEnv) (shaOf : Str → Str)
    (files : List FileRecord)
    (hok : ∀ f ∈ files, env.createBlob f.content = Except.ok (shaOf f.content)) :
    ∀ tr, blobLoop env files tr =
      (Except.ok (files.map (fun f =>
         ({ path := f.path, mode := ("100644".data), type := ("blob".data),
            sha := shaOf f.content } : TreeEntry))),
       tr ++ files.map (fun f => Call.postBlob (createBlobRequest f.content))) := by
  induction files with
  | nil => intro tr; simp [blobLoop, mpure]
  | cons f rest ih =>
    intro tr
    have hf := hok f (List.mem_cons_self f rest)
    have hrest : ∀ g ∈ rest, env.createBlob g.content = Except.ok (shaOf g.content) :=
      fun g hg => hok g (List.mem_cons_of_mem f hg)
    simp [blobLoop, mbind, call, hf, mpure, ih hrest]

/-- Claim C5: when a non-empty new branch name is requested and its
creation from the base head succeeds, the pipeline creates it right after
resolving the base branch head and before any blob/tree/commit creation;
the only ref update in the trace targets the new branch and the returned
branchUrl points at the new branch, not the base branch. -/
theorem new_branch_targeting (env : PushEnv) (a : PushArgs) (tok : TokenInfo)
    (baseSha treeSha tSha cSha : Str) (shaOf : Str → Str)
    (hv : env.verifyToken = Except.ok tok)
    (hr : env.repoGet = Except.ok ())
    (hb : env.getBranchSHA = Except.ok baseSha)
    (hnb : a.newBranch ≠ [])
    (hcb : env.createBranchResp = Except.ok ())
    (hct : env.getCommitTree = Except.ok treeSha)
    (hvne : validateFiles a.files ≠ [])
    (hblob : ∀ f ∈ validateFiles a.files,
      env.createBlob f.content = Except.ok (shaOf f.content))
    (htr : env.createTree = Except.ok tSha)
    (hcm : env.createCommit = Except.ok cSha)
    (hup : env.updateRef = Except.ok ()) :
    (pushFilesAsCommit env a).1 =
      Except.ok { commitSHA := cSha, repoUrl := repoUrlOf a.owner a.repo,
                  branchUrl := branchUrlOf a.owner a.repo a.newBranch } ∧
    (pushFilesAsCommit env a).2 =
      [Call.verifyToken, Call.repoGet, Call.getRef a.baseBranch,
       Call.createRef a.newBranch baseSha, Call.getCommit baseSha] ++
      (validateFiles a.files).map
        (fun f => Call.postBlob (createBlobRequest f.content)) ++
      [Call.postTree treeSha ((validateFiles a.files).map (fun f =>
         ({ path := f.path, mode := ("100644".data), type := ("blob".data),
            sha := shaOf f.content } : TreeEntry))),
       Call.postCommit baseSha tSha a.commitMessage,
       Call.patchRef a.newBranch cSha true] ∧
    (∀ b s frc, Call.patchRef b s frc ∈ (pushFilesAsCommit env a).2 →
      b = a.newBranch) := by
  have hnbe : a.newBranch.isEmpty = false := by
    cases hh : a.newBranch with
    | nil => exact absurd hh hnb
    | cons x xs => rfl
  have hve : (validateFiles a.files).isEmpty = false := by
    cases hh : validateFiles a.files with
    | nil => exact absurd hh hvne
    | cons x xs => rfl
  have htrace : (pushBody env a []).2 =
      [Call.verifyToken, Call.repoGet, Call.getRef a.baseBranch,
       Call.createRef a.newBranch baseSha, Call.getCommit baseSha] ++
      (validateFiles a.files).map
        (fun f => Call.postBlob (createBlobRequest f.content)) ++
      [Call.postTree treeSha ((validateFiles a.files).map (fun f =>
         ({ path := f.path, mode := ("100644".data), type := ("blob".data),
            sha := shaOf f.content } : TreeEntry))),
       Call.postCommit baseSha tSha a.commitMessage,
       Call.patchRef a.newBranch cSha true] := by
    simp [pushBody, mbind, mpure, call, callVerify, callRepoExists,
      callCreateBranch, createBranch, callCreateTree, hv, hr, hb, hcb, hct,
      hnbe, hve, htr, hcm, hup, blobLoop_ok env shaOf _ hblob]
  refine ⟨?_, htrace, ?_⟩
  · show ((pushBody env a []).1.mapError applyCatch) = _
    simp [pushBody, mbind, mpure, call, callVerify, callRepoExists,
      callCreateBranch, createBranch, callCreateTree, hv, hr, hb, hcb, hct,
      hnbe, hve, htr, hcm, hup, blobLoop_ok env shaOf _ hblob,
      Except.mapError]
  · intro b s frc hmem
    have hmem2 : Call.patchRef b s frc ∈ (pushBody env a []).2 := hmem
    rw [htrace] at hmem2
    simp at hmem2
    exact hmem2.1

theorem new_branch_targeting_witness :
    (pushFilesAsCommit envOk argsOk).1 =
      Except.ok { commitSHA := ("csha".data),
                  repoUrl := repoUrlOf argsOk.owner argsOk.repo,
                  branchUrl := branchUrlOf argsOk.owner argsOk.repo argsOk.newBranch } ∧
    (pushFilesAsCommit envOk argsOk).2 =
      [Call.verifyToken, Call.repoGet, Call.getRef argsOk.baseBranch,
       Call.createRef argsOk.newBranch ("base".data), Call.getCommit ("base".data)] ++
      (validateFiles argsOk.files).map
        (fun f => Call.postBlob (createBlobRequest f.content)) ++
      [Call.postTree ("btree".data) ((validateFiles argsOk.files).map (fun f =>
         ({ path := f.path, mode := ("100644".data), type := ("blob".data),
            sha := ("bsha".data) } : TreeEntry))),
       Call.postCommit ("base".data) ("tsha".data) argsOk.commitMessage,
       Call.patchRef argsOk.newBranch ("csha".data) true] ∧
    (∀ b s frc, Call.patchRef b s frc ∈ (pushFilesAsCommit envOk argsOk).2 →
      b = argsOk.newBranch) :=
  new_branch_targeting envOk argsOk
    { login := ("o".data), scopes := [("repo".data)] }
    ("base".data) ("btree".data) ("tsha".data) ("csha".data)
    (fun _ => ("bsha".data))
    rfl rfl rfl (by decide) rfl rfl (by decide) (by decide) rfl rfl rfl

/-! ## Claim C10 -/

def emitsP {α : Type} (x : M α) (P : Call → Prop) : Prop :=
  ∀ tr c, c ∈ (x tr).2 → c ∈ tr ∨ P c

theorem emitsP_mono {α : Type} {x : M α} {P Q : Call → Prop}
    (h : ∀ c, P c → Q c) (hx : emitsP x P) : emitsP x Q :=
  fun tr c hc => (hx tr c hc).imp id (h c)

theorem emitsP_mbind {α β : Type} {x : M α} {f : α → M β} {P : Call → Prop}
    (hx : emitsP x P) (hf : ∀ a, emitsP (f a) P) : emitsP (mbind x f) P := by
  intro tr c hc
  unfold mbind at hc
  rcases hxy : x tr with ⟨r, tr2⟩
  rw [hxy] at hc
  cases r with
  | ok a =>
    rcases hf a tr2 c hc with h | h
    · rcases hx tr c (by rw [hxy]; exact h) with h2 | h2
      · exact Or.inl h2
      · exact Or.inr h2
    · exact Or.inr h
  | error e =>
    have hc2 : c ∈ tr2 := hc
    rcases hx tr c (by rw [hxy]; exact hc2) with h2 | h2
    · exact Or.inl h2
    · exact Or.inr h2

theorem emitsP_mpure {α : Type} (a : α) (P : Call → Prop) :
    emitsP (mpure a) P := fun _ _ hc => Or.inl hc

theorem emitsP_throwJs {α : Type} (m : Str) (P : Call → Prop) :
    emitsP (throwJs m : M α) P := fun _ _ hc => Or.inl hc

theorem emitsP_fixed {α : Type} (x : M α) (ev : Call)
    (hx : ∀ tr, (x tr).2 = tr ++ [ev]) {P : Call → Prop} (hP : P ev) :
    emitsP x P := by
  intro tr c hc
  rw [hx tr] at hc
  rcases List.mem_append.1 hc with h | h
  · exact Or.inl h
  · rw [List.mem_singleton] at h
    subst h
    exact Or.inr hP

theorem emitsP_ite {α : Type} {P : Call → Prop} (c : Prop) [Decidable c]
    {x y : M α} (hx : emitsP x P) (hy : emitsP y P) :
    emitsP (if c then x else y) P := by
  by_cases h : c
  · rw [if_pos h]; exact hx
  · rw [if_neg h]; exact hy

theorem emitsP_blobLoop (env : PushEnv) (files : List FileRecord) :
    emitsP (blobLoop env files)
      (fun c => ∃ f : FileRecord,
        c = Call.postBlob (createBlobRequest f.content)) := by
  induction files with
  | nil => exact emitsP_mpure _ _
  | cons f rest ih =>
    refine emitsP_mbind (emitsP_fixed _ _ (fun tr => rfl) ⟨f, rfl⟩)
      (fun sha => ?_)
    exact emitsP_mbind ih (fun entries => emitsP_mpure _ _)

theorem emitsP_pushBody (env : PushEnv) (a : PushArgs) :
    emitsP (pushBody env a)
      (fun c => ∀ req, c = Call.postBlob req →
        req.encoding = ("utf-8".data)) := by
  unfold pushBody
  refine emitsP_mbind (emitsP_fixed _ Call.verifyToken (fun tr => rfl)
    (fun req h => by simp at h)) (fun _ => ?_)
  refine emitsP_mbind (emitsP_fixed _ Call.repoGet (fun tr => rfl)
    (fun req h => by simp at h)) (fun ex => ?_)
  refine emitsP_mbind (emitsP_ite _
    (emitsP_mpure _ _)
    (emitsP_mbind (emitsP_fixed _ Call.createRepo (fun tr => rfl)
      (fun req h => by simp at h)) (fun _ => emitsP_mpure _ _)))
    (fun _ => ?_)
  refine emitsP_mbind (emitsP_fixed _ (Call.getRef a.baseBranch) (fun tr => rfl)
    (fun req h => by simp at h)) (fun baseSHA => ?_)
  refine emitsP_mbind (emitsP_ite _
    (emitsP_mpure _ _)
    (emitsP_mbind (emitsP_fixed _ (Call.createRef a.newBranch baseSHA)
      (fun tr => rfl) (fun req h => by simp at h))
      (fun _ => emitsP_mpure _ _)))
    (fun branch => ?_)
  refine emitsP_mbind (emitsP_fixed _ (Call.getCommit baseSHA) (fun tr => rfl)
    (fun req h => by simp at h)) (fun baseTreeSHA => ?_)
  refine emitsP_mbind (emitsP_ite _ (emitsP_throwJs _ _) (emitsP_mpure _ _))
    (fun _ => ?_)
  refine emitsP_mbind ?_ (fun newTreeSHA => ?_)
  · unfold callCreateTree
    refine emitsP_mbind (emitsP_mono ?_ (emitsP_blobLoop env _))
      (fun entries => ?_)
    · intro c hc req hreq
      rcases hc with ⟨f, rfl⟩
      injection hreq with h2
      rw [← h2]
      rfl
    · exact emitsP_fixed _ (Call.postTree baseTreeSHA entries) (fun tr => rfl)
        (fun req h => by simp at h)
  · refine emitsP_mbind (emitsP_fixed _
      (Call.postCommit baseSHA newTreeSHA a.commitMessage) (fun tr => rfl)
      (fun req h => by simp at h)) (fun commitSHA => ?_)
    refine emitsP_mbind (emitsP_fixed _
      (Call.patchRef branch commitSHA true) (fun tr => rfl)
      (fun req h => by simp at h)) (fun _ => emitsP_mpure _ _)

/-- Claim C10: every blob posted during a publish declares encoding
"utf-8" — never "base64" — whatever the content string is, including raw
base64 payloads of binary files obtained from a walk with includeBinary. -/
theorem blob_encoding_utf8 (env : PushEnv) (a : PushArgs) (req : BlobRequest)
    (hmem : Call.postBlob req ∈ (pushFilesAsCommit env a).2) :
    req.encoding = ("utf-8".data) ∧ req.encoding ≠ ("base64".data) := by
  have hmem2 : Call.postBlob req ∈ (pushBody env a []).2 := hmem
  rcases emitsP_pushBody env a [] (Call.postBlob req) hmem2 with h | h
  · simp at h
  · have henc := h req rfl
    refine ⟨henc, ?_⟩
    rw [henc]
    decide

theorem blob_encoding_utf8_witness :
    (createBlobRequest ("A".data)).encoding = ("utf-8".data) ∧
      (createBlobRequest ("A".data)).encoding ≠ ("base64".data) :=
  blob_encoding_utf8 envOk argsOk (createBlobRequest ("A".data)) (by decide)
